import Mathlib

/-!
# Inverted Duffing oscillator (`inverted_duffing.go`)

A shallow embedding of the trajectory generator `iter` and of the two sampling
loops of `main`.

* Floating-point values are modelled in an arbitrary field `α` (the reals for
  the statements about `math.Cos`); `math.Cos` is the parameter `cos`, and
  `math.Pow(x, 3)` is `x ^ 3`.
* The goroutine started by `iter` and its buffered channel are one record
  `Gen`; a send and a receive are the functions `Gen.send` and `Gen.recv`,
  which return `none` where the Go operation blocks. The loop variables are
  private to the goroutine, so a send and the post statement that follows it
  are one move.
* `main` is the interleaving of the sends of its goroutines with the receives
  of its `for` loop; a schedule is a list of moves, and a statement about
  every schedule is a statement about every execution.
* Go's `int` has `w` bits (`w = 64` or `w = 32`); `nsteps` is computed with
  wrap-around, and `make(plotter.XYs, nsteps)` panics on a negative or too
  large `nsteps`.
* Of the plotting calls, the error result of `plot.New` is a parameter;
  `plotter.NewLine` and `p.Save` come after the loops and are outside the
  model.
-/

namespace Duffing

/-! ## Data model -/

/-- The struct `point`: the coordinates and the marker `breaker`. -/
structure point (α : Type) where
  x : α
  y : α
  breaker : Int := 0
  deriving DecidableEq

/-- One element of a `plotter.XYs` slice. -/
structure XY (α : Type) where
  X : α
  Y : α
  deriving DecidableEq

/-- The loop variables `x, y, t` of the goroutine of `iter`. -/
structure Vars (α : Type) where
  x : α
  y : α
  t : α
  deriving DecidableEq

/-- Capacity of the channel made by `iter`: `make(chan point, 400)`. -/
def chanCap : Nat := 400

/-- A goroutine started by `iter` together with the channel it sends on:
the captured parameters `F` and `dt`, the loop variables, and the points
buffered in the channel, oldest first. -/
structure Gen (α : Type) where
  F : α
  dt : α
  vars : Vars α
  channel : List (point α)
  deriving DecidableEq

variable {α : Type} [Field α]

/-- The post statement of the `for` loop of `iter`:
`x, y, t = dt*y + x, dt*(F*math.Cos(t)-0.5*y+x-math.Pow(x, 3)) + y, t + dt`. -/
def post (cos : α → α) (F dt : α) (v : Vars α) : Vars α :=
  { x := dt * v.y + v.x
    y := dt * (F * cos v.t - 0.5 * v.y + v.x - v.x ^ 3) + v.y
    t := v.t + dt }

/-- The value sent by the loop body: `point{x: x, y: y}`. -/
def body {β : Type} (v : Vars β) : point β :=
  { x := v.x, y := v.y, breaker := 0 }

/-- The function `iter`: an empty channel and a goroutine whose loop starts
at `x, y, t := x0, y0, t0` with `t0 := 0.`. -/
def iter (x0 y0 F dt : α) : Gen α :=
  { F := F, dt := dt, vars := { x := x0, y := y0, t := 0 }, channel := [] }

/-- One iteration of the goroutine: the send `channel <- point{x: x, y: y}`
followed by the post statement. The send blocks (`none`) while the channel
holds `chanCap` points. -/
def Gen.send (cos : α → α) (g : Gen α) : Option (Gen α) :=
  if g.channel.length < chanCap then
    some { g with
      channel := g.channel ++ [body g.vars]
      vars := post cos g.F g.dt g.vars }
  else none

/-- A receive `<-channel`: the oldest buffered point; blocks (`none`) on an
empty channel. -/
def Gen.recv {β : Type} (g : Gen β) : Option (point β × Gen β) :=
  match g.channel with
  | [] => none
  | p :: rest => some (p, { g with channel := rest })

/-- The loop variables at the start of iteration `k` of the goroutine. -/
def loopVars (cos : α → α) (x0 y0 F dt : α) : Nat → Vars α
  | 0 => { x := x0, y := y0, t := 0 }
  | k + 1 => post cos F dt (loopVars cos x0 y0 F dt k)

/-- The point sent in iteration `k` of the goroutine. -/
def emitted (cos : α → α) (x0 y0 F dt : α) (k : Nat) : point α :=
  body (loopVars cos x0 y0 F dt k)

/-- The conversion done by the sampling loops:
`points[i].X = temp.x; points[i].Y = temp.y`. -/
def toXY {β : Type} (p : point β) : XY β :=
  { X := p.x, Y := p.y }

/-! ## The single-run branch of `main` -/

/-- State of the `else` branch of `main` while its loop runs: the goroutine
and channel `results`, the bound `nsteps`, the counter `i` and the slice
`points`. -/
structure Single (α : Type) where
  results : Gen α
  nsteps : Nat
  i : Nat
  points : List (XY α)
  deriving DecidableEq

/-- The moves of the single-run system: an iteration of the goroutine, or an
iteration of the loop of `main`. -/
inductive Action where
  | send
  | recv
  deriving DecidableEq

/-- The state when the loop of `main` is entered: `points` is
`make(plotter.XYs, nsteps)`, all zero. -/
def Single.init (results : Gen α) (nsteps : Nat) : Single α :=
  { results := results, nsteps := nsteps, i := 0
    points := List.replicate nsteps { X := 0, Y := 0 } }

/-- One move. `recv` is an iteration of
`for i := 0; i < nsteps; i++ { temp := <-results; points[i].X = temp.x; points[i].Y = temp.y }`;
it is not enabled once `i = nsteps` or while the channel is empty. -/
def Single.step (cos : α → α) (a : Action) (s : Single α) : Option (Single α) :=
  match a with
  | Action.send =>
    match s.results.send cos with
    | some g => some { s with results := g }
    | none => none
  | Action.recv =>
    if s.i < s.nsteps then
      match s.results.recv with
      | some (temp, g) =>
        some { s with results := g, points := s.points.set s.i (toXY temp), i := s.i + 1 }
      | none => none
    else none

/-- Run a schedule; `none` when one of its moves is not enabled. -/
def Single.run (cos : α → α) : List Action → Single α → Option (Single α)
  | [], s => some s
  | a :: rest, s =>
    match Single.step cos a s with
    | some s' => Single.run cos rest s'
    | none => none

/-! ## The comparison branch of `main` -/

/-- State of the `if *max_min_comp` branch while its loop runs. `temp_low` is
`some` between the receive `<-low` and the receive `<-high` of one
iteration. -/
structure Comp (α : Type) where
  low : Gen α
  high : Gen α
  nsteps : Nat
  i : Nat
  temp_low : Option (point α)
  points_low : List (XY α)
  points_high : List (XY α)
  deriving DecidableEq

/-- The moves of the comparison system: an iteration of either goroutine, or
one of the two receives of an iteration of the loop of `main`. -/
inductive CAction where
  | sendLow
  | sendHigh
  | recvLow
  | recvHigh
  deriving DecidableEq

/-- The state when the loop of the comparison branch is entered. -/
def Comp.init (low high : Gen α) (nsteps : Nat) : Comp α :=
  { low := low, high := high, nsteps := nsteps, i := 0, temp_low := none
    points_low := List.replicate nsteps { X := 0, Y := 0 }
    points_high := List.replicate nsteps { X := 0, Y := 0 } }

/-- One move. `recvLow` is `temp_low := <-low`; `recvHigh` is
`temp_high := <-high` followed by the four assignments and `i++`. -/
def Comp.step (cos : α → α) (a : CAction) (s : Comp α) : Option (Comp α) :=
  match a with
  | CAction.sendLow =>
    match s.low.send cos with
    | some g => some { s with low := g }
    | none => none
  | CAction.sendHigh =>
    match s.high.send cos with
    | some g => some { s with high := g }
    | none => none
  | CAction.recvLow =>
    if s.i < s.nsteps then
      match s.temp_low with
      | some _ => none
      | none =>
        match s.low.recv with
        | some (p, g) => some { s with low := g, temp_low := some p }
        | none => none
    else none
  | CAction.recvHigh =>
    match s.temp_low with
    | none => none
    | some temp_low =>
      match s.high.recv with
      | some (temp_high, g) =>
        some { s with
          high := g
          temp_low := none
          points_low := s.points_low.set s.i (toXY temp_low)
          points_high := s.points_high.set s.i (toXY temp_high)
          i := s.i + 1 }
      | none => none

/-- Run a schedule of the comparison system. -/
def Comp.run (cos : α → α) : List CAction → Comp α → Option (Comp α)
  | [], s => some s
  | a :: rest, s =>
    match Comp.step cos a s with
    | some s' => Comp.run cos rest s'
    | none => none

/-! ## `main`: flags, `nsteps` and the two branches -/

/-- A Go `int` of `w` bits: the two's-complement value of `z`. -/
def wrapInt (w : Nat) (z : Int) : Int :=
  (z + 2 ^ (w - 1)) % 2 ^ w - 2 ^ (w - 1)

/-- The command-line flags of `main`, with their Go types. -/
structure Flags (α : Type) where
  F : α
  x0 : α
  y0 : α
  t : Int
  dt : Int
  max_min_comp : Bool
  deriving DecidableEq

/-- The expression `nsteps := (*t) * (*dt)` on `w`-bit integers. -/
def nstepsOf (w : Nat) (f : Flags α) : Int :=
  wrapInt w (f.t * f.dt)

/-- The step `1./float64(*dt)` passed to `iter`. For `*dt = 0` Go evaluates it
to `+Inf`, which a field does not have: statements about this value take
`*dt ≠ 0`. -/
def dtOf (f : Flags α) : α :=
  1 / (f.dt : α)

/-- The state of `main` when its sampling loop is entered. -/
inductive MainState (α : Type) where
  | comp (s : Comp α)
  | single (s : Single α)
  deriving DecidableEq

/-- Size in bytes of one `plotter.XY`, a struct of two `float64`. -/
def xySize : Int := 16

/-- Whether `make(plotter.XYs, n)` panics (`makeslice: len out of range`): the
length is negative, or the byte size `xySize * n` overflows the `w`-bit
`uintptr`, or it exceeds `maxAlloc`, the largest size the runtime allocates
(`2^48` bytes on 64-bit Linux). -/
def makePanics (w maxAlloc : Nat) (n : Int) : Bool :=
  decide (n < 0) || decide ((2 : Int) ^ w ≤ xySize * n)
    || decide ((maxAlloc : Int) < xySize * n)

/-- The function `main` up to the entry of its sampling loop. The generators
are started first; then `main` panics (`none`) when `plot.New` returns an
error (`plotErr`, the result of that external call) and when
`make(plotter.XYs, nsteps)` panics. -/
def mainInit (w maxAlloc : Nat) (plotErr : Bool) (f : Flags α) : Option (MainState α) :=
  if f.max_min_comp then
    let low := iter f.x0 f.y0 0.24 (dtOf f)
    let high := iter f.x0 f.y0 0.35 (dtOf f)
    if plotErr then none
    else if makePanics w maxAlloc (nstepsOf w f) then none
    else some (MainState.comp (Comp.init low high (nstepsOf w f).toNat))
  else
    let results := iter f.x0 f.y0 f.F (dtOf f)
    if plotErr then none
    else if makePanics w maxAlloc (nstepsOf w f) then none
    else some (MainState.single (Single.init results (nstepsOf w f).toNat))

/-! ## Invariants and measures -/

/-- The generator `g` is the one started by `iter x0 y0 F dt` after `k`
receives: its channel holds the points `k, k+1, ...` of the sequence and its
loop variables are those of the next iteration. -/
def Gen.Inv (cos : α → α) (x0 y0 F dt : α) (k : Nat) (g : Gen α) : Prop :=
  g.F = F ∧ g.dt = dt ∧ g.channel.length ≤ chanCap ∧
  g.vars = loopVars cos x0 y0 F dt (k + g.channel.length) ∧
  g.channel = (List.range' k g.channel.length).map (emitted cos x0 y0 F dt)

/-- Invariant of the single-run system for the generator `iter x0 y0 F dt`
and the bound `n`: the first `i` slots of `points` hold the first `i` points
of the sequence. -/
def Single.Inv (cos : α → α) (x0 y0 F dt : α) (n : Nat) (s : Single α) : Prop :=
  s.nsteps = n ∧ s.i ≤ n ∧ Gen.Inv cos x0 y0 F dt s.i s.results ∧ s.points.length = n ∧
  ∀ j, j < s.i → s.points[j]? = some (toXY (emitted cos x0 y0 F dt j))

/-- Number of moves left before the single-run system can move no more. -/
def Single.fuel (s : Single α) : Nat :=
  2 * (s.nsteps - s.i) + (chanCap - s.results.channel.length)

/-- Number of points received by the loop and not yet stored: `1` between the
two receives of an iteration. -/
def Comp.held (s : Comp α) : Nat :=
  match s.temp_low with
  | none => 0
  | some _ => 1

/-- Invariant of the comparison system for the generators `iter x0 y0 Fl dt`
and `iter x0 y0 Fh dt` and the bound `n`. -/
def Comp.Inv (cos : α → α) (x0 y0 Fl Fh dt : α) (n : Nat) (s : Comp α) : Prop :=
  s.nsteps = n ∧ s.i ≤ n ∧ s.points_low.length = n ∧ s.points_high.length = n ∧
  (∀ j, j < s.i → s.points_low[j]? = some (toXY (emitted cos x0 y0 Fl dt j))) ∧
  (∀ j, j < s.i → s.points_high[j]? = some (toXY (emitted cos x0 y0 Fh dt j))) ∧
  Gen.Inv cos x0 y0 Fl dt (s.i + s.held) s.low ∧
  Gen.Inv cos x0 y0 Fh dt s.i s.high ∧
  (∀ p, s.temp_low = some p → p = emitted cos x0 y0 Fl dt s.i ∧ s.i < n)

/-- Number of moves left before the comparison system can move no more. -/
def Comp.fuel (s : Comp α) : Nat :=
  (4 * (s.nsteps - s.i) - 2 * s.held) + (chanCap - s.low.channel.length)
    + (chanCap - s.high.channel.length)

/-! ## The generator and its channel -/

theorem gen_inv_iter (cos : α → α) (x0 y0 F dt : α) :
    Gen.Inv cos x0 y0 F dt 0 (iter x0 y0 F dt) := by
  simp [Gen.Inv, iter, loopVars]

theorem gen_send_eq_some (cos : α → α) (g : Gen α) (h : g.channel.length < chanCap) :
    g.send cos = some { g with
      channel := g.channel ++ [body g.vars]
      vars := post cos g.F g.dt g.vars } := by
  simp [Gen.send, h]

theorem gen_send_eq_none (cos : α → α) (g : Gen α) (h : chanCap ≤ g.channel.length) :
    g.send cos = none := by
  simp [Gen.send, Nat.not_lt.mpr h]

theorem gen_send_length (cos : α → α) (g g' : Gen α) (h : g.send cos = some g') :
    g.channel.length < chanCap ∧ g'.channel.length = g.channel.length + 1 := by
  unfold Gen.send at h
  split at h
  · rename_i hlt
    injection h with h
    subst h
    simp [hlt]
  · cases h

theorem gen_inv_send (cos : α → α) (x0 y0 F dt : α) (k : Nat) (g g' : Gen α)
    (hinv : Gen.Inv cos x0 y0 F dt k g) (h : g.send cos = some g') :
    Gen.Inv cos x0 y0 F dt k g' := by
  obtain ⟨hF, hdt, -, hv, hc⟩ := hinv
  unfold Gen.send at h
  split at h
  · rename_i hlt
    injection h with h
    subst h
    refine ⟨hF, hdt, ?_, ?_, ?_⟩
    · simp only [List.length_append, List.length_singleton]
      omega
    · simp only [List.length_append, List.length_singleton]
      rw [← Nat.add_assoc, loopVars, ← hv, hF, hdt]
    · simp only [List.length_append, List.length_singleton]
      rw [List.range'_concat, List.map_append, ← hc]
      simp [emitted, hv]
  · cases h

theorem gen_recv_cons {β : Type} (p : point β) (rest : List (point β)) (g : Gen β)
    (h : g.channel = p :: rest) : g.recv = some (p, { g with channel := rest }) := by
  unfold Gen.recv
  rw [h]

theorem gen_recv_some {β : Type} (g g' : Gen β) (p : point β) (h : g.recv = some (p, g')) :
    g.channel = p :: g'.channel ∧ g'.F = g.F ∧ g'.dt = g.dt ∧ g'.vars = g.vars := by
  unfold Gen.recv at h
  split at h
  · cases h
  · rename_i q rest hq
    injection h with h
    injection h with h1 h2
    subst h1 h2
    simp [hq]

theorem gen_inv_recv (cos : α → α) (x0 y0 F dt : α) (k : Nat) (g g' : Gen α) (p : point α)
    (hinv : Gen.Inv cos x0 y0 F dt k g) (h : g.recv = some (p, g')) :
    p = emitted cos x0 y0 F dt k ∧ Gen.Inv cos x0 y0 F dt (k + 1) g' ∧
      g.channel.length = g'.channel.length + 1 := by
  obtain ⟨hF, hdt, hlen, hv, hc⟩ := hinv
  obtain ⟨hch, hF', hdt', hv'⟩ := gen_recv_some g g' p h
  have hl : g.channel.length = g'.channel.length + 1 := by rw [hch]; rfl
  rw [hl, List.range'_succ, List.map_cons, hch] at hc
  injection hc with hp hrest
  refine ⟨hp, ⟨?_, ?_, ?_, ?_, hrest⟩, hl⟩
  · rw [hF', hF]
  · rw [hdt', hdt]
  · omega
  · rw [hv', hv, hl]
    congr 1
    omega

/-! ## The single-run loop -/

theorem single_inv_init (cos : α → α) (x0 y0 F dt : α) (n : Nat) :
    Single.Inv cos x0 y0 F dt n (Single.init (iter x0 y0 F dt) n) := by
  refine ⟨rfl, Nat.zero_le n, gen_inv_iter cos x0 y0 F dt, ?_, ?_⟩
  · simp [Single.init]
  · intro j hj
    simp [Single.init] at hj

theorem single_inv_step (cos : α → α) (x0 y0 F dt : α) (n : Nat) (a : Action)
    (s s' : Single α) (hinv : Single.Inv cos x0 y0 F dt n s)
    (h : Single.step cos a s = some s') :
    Single.Inv cos x0 y0 F dt n s' ∧ s.fuel = s'.fuel + 1 ∧
      (if a = Action.send then 1 else 0) + s.results.channel.length
        = (if a = Action.recv then 1 else 0) + s'.results.channel.length ∧
      s'.i = s.i + (if a = Action.recv then 1 else 0) := by
  obtain ⟨hn, hi, hg, hlen, hpts⟩ := hinv
  cases a with
  | send =>
    simp only [Single.step] at h
    split at h
    · rename_i g hsend
      injection h with h
      subst h
      obtain ⟨hlt, hl⟩ := gen_send_length cos _ _ hsend
      refine ⟨⟨hn, hi, gen_inv_send cos x0 y0 F dt _ _ _ hg hsend, hlen, hpts⟩, ?_, ?_, ?_⟩
      · simp only [Single.fuel, hl]
        omega
      · simp [hl]
        omega
      · simp
    · cases h
  | recv =>
    simp only [Single.step] at h
    split at h
    · rename_i hlt
      split at h
      · rename_i temp g hrecv
        injection h with h
        subst h
        obtain ⟨hp, hg', hl⟩ := gen_inv_recv cos x0 y0 F dt _ _ _ _ hg hrecv
        have hcap := hg.2.2.1
        refine ⟨⟨hn, by simp only; omega, hg', by simp [hlen], ?_⟩, ?_, ?_, ?_⟩
        · intro j hj
          simp only at hj ⊢
          rw [List.getElem?_set]
          by_cases hji : s.i = j
          · subst hji
            simp only [if_true]
            rw [if_pos (by omega), hp]
          · rw [if_neg hji]
            exact hpts j (by omega)
        · simp only [Single.fuel, hl]
          omega
        · simp [hl]
          omega
        · simp
      · cases h
    · cases h

theorem single_inv_run (cos : α → α) (x0 y0 F dt : α) (n : Nat) (sched : List Action) :
    ∀ (s s' : Single α), Single.Inv cos x0 y0 F dt n s → Single.run cos sched s = some s' →
      Single.Inv cos x0 y0 F dt n s' ∧ s.fuel = s'.fuel + sched.length ∧
      sched.count Action.send + s.results.channel.length
        = sched.count Action.recv + s'.results.channel.length ∧
      s'.i = s.i + sched.count Action.recv := by
  induction sched with
  | nil =>
    intro s s' hinv h
    simp only [Single.run] at h
    injection h with h
    subst h
    exact ⟨hinv, by simp, by simp, by simp⟩
  | cons a rest ih =>
    intro s s' hinv h
    simp only [Single.run] at h
    split at h
    · rename_i s1 hstep
      obtain ⟨h1, h2, h3, h3'⟩ := single_inv_step cos x0 y0 F dt n a s s1 hinv hstep
      obtain ⟨h4, h5, h6, h6'⟩ := ih s1 s' h1 h
      refine ⟨h4, ?_, ?_, ?_⟩
      · simp only [List.length_cons]
        omega
      · cases a <;> simp [List.count_cons] at h3 h6 ⊢ <;> omega
      · cases a <;> simp [List.count_cons] at h3' h6' ⊢ <;> omega
    · cases h

/-- When the loop has ended the slice holds exactly the first `n` points. -/
theorem single_inv_points (cos : α → α) (x0 y0 F dt : α) (n : Nat) (s : Single α)
    (hinv : Single.Inv cos x0 y0 F dt n s) (hi : s.i = n) :
    s.points = (List.range n).map (fun j => toXY (emitted cos x0 y0 F dt j)) := by
  obtain ⟨-, -, -, hlen, hpts⟩ := hinv
  apply List.ext_getElem?
  intro j
  by_cases hj : j < n
  · rw [hpts j (by omega)]
    simp [hj]
  · rw [List.getElem?_eq_none (by omega), List.getElem?_eq_none (by simp; omega)]

/-- Before the loop has ended, one or two moves bring it one iteration
further. -/
theorem single_inv_advance (cos : α → α) (x0 y0 F dt : α) (n : Nat) (s : Single α)
    (hinv : Single.Inv cos x0 y0 F dt n s) (hi : s.i < n) :
    ∃ sched s', Single.run cos sched s = some s' ∧ s'.i = s.i + 1 := by
  have hn := hinv.1
  cases hc : s.results.channel with
  | nil =>
    have h1 := gen_send_eq_some cos s.results (by rw [hc]; simp [chanCap])
    rw [hc] at h1
    refine ⟨[Action.send, Action.recv], ?_⟩
    simp only [Single.run, Single.step, h1, List.nil_append, Gen.recv, hn, hi, if_true]
    exact ⟨_, rfl, rfl⟩
  | cons p rest =>
    have h1 := gen_recv_cons p rest s.results hc
    refine ⟨[Action.recv], ?_⟩
    simp only [Single.run, Single.step, h1, hn, hi, if_true]
    exact ⟨_, rfl, rfl⟩

theorem single_run_append (cos : α → α) (l1 l2 : List Action) :
    ∀ (s s1 : Single α), Single.run cos l1 s = some s1 →
      Single.run cos (l1 ++ l2) s = Single.run cos l2 s1 := by
  induction l1 with
  | nil =>
    intro s s1 h
    simp only [Single.run] at h
    injection h with h
    subst h
    rfl
  | cons a rest ih =>
    intro s s1 h
    simp only [Single.run, List.cons_append] at h ⊢
    split at h
    · rename_i s2 hstep
      exact ih s2 s1 h
    · cases h

/-- From every state of a run the loop can be brought to its end. -/
theorem single_inv_complete (cos : α → α) (x0 y0 F dt : α) (n : Nat) :
    ∀ (d : Nat) (s : Single α), Single.Inv cos x0 y0 F dt n s → n - s.i = d →
      ∃ sched s', Single.run cos sched s = some s' ∧ s'.i = n := by
  intro d
  induction d with
  | zero =>
    intro s hinv hd
    exact ⟨[], s, rfl, by have := hinv.2.1; omega⟩
  | succ d ih =>
    intro s hinv hd
    obtain ⟨l1, s1, hrun1, hi1⟩ := single_inv_advance cos x0 y0 F dt n s hinv (by omega)
    have hinv1 := (single_inv_run cos x0 y0 F dt n l1 s s1 hinv hrun1).1
    obtain ⟨l2, s2, hrun2, hi2⟩ := ih s1 hinv1 (by omega)
    exact ⟨l1 ++ l2, s2, by rw [single_run_append cos l1 l2 s s1 hrun1, hrun2], hi2⟩

/-! ## The comparison loop -/

theorem comp_inv_init (cos : α → α) (x0 y0 Fl Fh dt : α) (n : Nat) :
    Comp.Inv cos x0 y0 Fl Fh dt n (Comp.init (iter x0 y0 Fl dt) (iter x0 y0 Fh dt) n) := by
  refine ⟨rfl, Nat.zero_le n, ?_, ?_, ?_, ?_, gen_inv_iter cos x0 y0 Fl dt,
    gen_inv_iter cos x0 y0 Fh dt, ?_⟩
  · simp [Comp.init]
  · simp [Comp.init]
  · intro j hj
    simp [Comp.init] at hj
  · intro j hj
    simp [Comp.init] at hj
  · intro p hp
    simp [Comp.init] at hp

theorem getElem?_set_filled {β : Type} (l : List β) (i : Nat) (v : β) (f : Nat → β)
    (hlen : i < l.length) (h : ∀ j, j < i → l[j]? = some (f j)) (hv : v = f i) :
    ∀ j, j < i + 1 → (l.set i v)[j]? = some (f j) := by
  intro j hj
  rw [List.getElem?_set]
  by_cases hji : i = j
  · subst hji
    rw [if_pos rfl, if_pos hlen, hv]
  · rw [if_neg hji]
    exact h j (by omega)

theorem comp_inv_step (cos : α → α) (x0 y0 Fl Fh dt : α) (n : Nat) (a : CAction)
    (s s' : Comp α) (hinv : Comp.Inv cos x0 y0 Fl Fh dt n s)
    (h : Comp.step cos a s = some s') :
    Comp.Inv cos x0 y0 Fl Fh dt n s' ∧ s.fuel = s'.fuel + 1 ∧
      (if a = CAction.sendLow then 1 else 0) + s.low.channel.length
        = (if a = CAction.recvLow then 1 else 0) + s'.low.channel.length ∧
      (if a = CAction.sendHigh then 1 else 0) + s.high.channel.length
        = (if a = CAction.recvHigh then 1 else 0) + s'.high.channel.length := by
  obtain ⟨hn, hi, hll, hlh, hpl, hph, hgl, hgh, htemp⟩ := hinv
  have hcl := hgl.2.2.1
  have hch := hgh.2.2.1
  cases a with
  | sendLow =>
    simp only [Comp.step] at h
    split at h
    · rename_i g hsend
      injection h with h
      subst h
      obtain ⟨hlt, hl⟩ := gen_send_length cos _ _ hsend
      refine ⟨⟨hn, hi, hll, hlh, hpl, hph, gen_inv_send cos x0 y0 Fl dt _ _ _ hgl hsend,
        hgh, htemp⟩, ?_, ?_, ?_⟩
      · simp only [Comp.fuel, Comp.held, hl]
        omega
      · simp [hl]
        omega
      · simp
    · cases h
  | sendHigh =>
    simp only [Comp.step] at h
    split at h
    · rename_i g hsend
      injection h with h
      subst h
      obtain ⟨hlt, hl⟩ := gen_send_length cos _ _ hsend
      refine ⟨⟨hn, hi, hll, hlh, hpl, hph, hgl,
        gen_inv_send cos x0 y0 Fh dt _ _ _ hgh hsend, htemp⟩, ?_, ?_, ?_⟩
      · simp only [Comp.fuel, Comp.held, hl]
        omega
      · simp
      · simp [hl]
        omega
    · cases h
  | recvLow =>
    simp only [Comp.step] at h
    split at h
    · rename_i hlt
      split at h
      · cases h
      · rename_i hnone
        split at h
        · rename_i p g hrecv
          injection h with h
          subst h
          have hheld : s.held = 0 := by simp [Comp.held, hnone]
          rw [hheld, Nat.add_zero] at hgl
          obtain ⟨hp, hg', hl⟩ := gen_inv_recv cos x0 y0 Fl dt _ _ _ _ hgl hrecv
          refine ⟨⟨hn, hi, hll, hlh, hpl, hph, hg', hgh, ?_⟩, ?_, ?_, ?_⟩
          · intro q hq
            simp only [Option.some.injEq] at hq
            subst hq
            exact ⟨hp, Nat.lt_of_lt_of_eq hlt hn⟩
          · simp only [Comp.fuel, Comp.held, hl, hnone]
            omega
          · simp [hl]
            omega
          · simp
        · cases h
    · cases h
  | recvHigh =>
    simp only [Comp.step] at h
    split at h
    · cases h
    · rename_i temp_low hsome
      split at h
      · rename_i temp_high g hrecv
        injection h with h
        subst h
        have hheld : s.held = 1 := by simp [Comp.held, hsome]
        rw [hheld] at hgl
        obtain ⟨hp, hg', hl⟩ := gen_inv_recv cos x0 y0 Fh dt _ _ _ _ hgh hrecv
        obtain ⟨hpl', hlt⟩ := htemp temp_low hsome
        refine ⟨⟨hn, by simp only; omega, by simp [hll], by simp [hlh], ?_, ?_, ?_, hg', ?_⟩,
          ?_, ?_, ?_⟩
        · exact getElem?_set_filled _ _ _ (fun j => toXY (emitted cos x0 y0 Fl dt j))
            (by omega) hpl (by rw [hpl'])
        · exact getElem?_set_filled _ _ _ (fun j => toXY (emitted cos x0 y0 Fh dt j))
            (by omega) hph (by rw [hp])
        · simpa [Comp.held] using hgl
        · intro q hq
          simp at hq
        · simp only [Comp.fuel, Comp.held, hl, hsome]
          omega
        · simp
        · simp [hl]
          omega
      · cases h

theorem comp_inv_run (cos : α → α) (x0 y0 Fl Fh dt : α) (n : Nat) (sched : List CAction) :
    ∀ (s s' : Comp α), Comp.Inv cos x0 y0 Fl Fh dt n s → Comp.run cos sched s = some s' →
      Comp.Inv cos x0 y0 Fl Fh dt n s' ∧ s.fuel = s'.fuel + sched.length ∧
      sched.count CAction.sendLow + s.low.channel.length
        = sched.count CAction.recvLow + s'.low.channel.length ∧
      sched.count CAction.sendHigh + s.high.channel.length
        = sched.count CAction.recvHigh + s'.high.channel.length := by
  induction sched with
  | nil =>
    intro s s' hinv h
    simp only [Comp.run] at h
    injection h with h
    subst h
    exact ⟨hinv, by simp, by simp, by simp⟩
  | cons a rest ih =>
    intro s s' hinv h
    simp only [Comp.run] at h
    split at h
    · rename_i s1 hstep
      obtain ⟨h1, h2, h3, h3'⟩ := comp_inv_step cos x0 y0 Fl Fh dt n a s s1 hinv hstep
      obtain ⟨h4, h5, h6, h6'⟩ := ih s1 s' h1 h
      refine ⟨h4, ?_, ?_, ?_⟩
      · simp only [List.length_cons]
        omega
      · cases a <;> simp [List.count_cons] at h3 h6 ⊢ <;> omega
      · cases a <;> simp [List.count_cons] at h3' h6' ⊢ <;> omega
    · cases h

theorem filled_eq_map {β : Type} (l : List β) (n : Nat) (f : Nat → β) (hlen : l.length = n)
    (h : ∀ j, j < n → l[j]? = some (f j)) : l = (List.range n).map f := by
  apply List.ext_getElem?
  intro j
  by_cases hj : j < n
  · rw [h j hj]
    simp [hj]
  · rw [List.getElem?_eq_none (by omega), List.getElem?_eq_none (by simp; omega)]

/-- When the comparison loop has ended each slice holds exactly the first `n`
points of its own generator. -/
theorem comp_inv_points (cos : α → α) (x0 y0 Fl Fh dt : α) (n : Nat) (s : Comp α)
    (hinv : Comp.Inv cos x0 y0 Fl Fh dt n s) (hi : s.i = n) :
    s.points_low = (List.range n).map (fun j => toXY (emitted cos x0 y0 Fl dt j)) ∧
    s.points_high = (List.range n).map (fun j => toXY (emitted cos x0 y0 Fh dt j)) := by
  obtain ⟨-, -, hll, hlh, hpl, hph, -, -, -⟩ := hinv
  rw [hi] at hpl hph
  exact ⟨filled_eq_map _ n _ hll hpl, filled_eq_map _ n _ hlh hph⟩

/-- Before the comparison loop has ended, at most four moves bring it one
iteration further. -/
theorem comp_inv_advance (cos : α → α) (x0 y0 Fl Fh dt : α) (n : Nat) (s : Comp α)
    (hinv : Comp.Inv cos x0 y0 Fl Fh dt n s) (hi : s.i < n) :
    ∃ sched s', Comp.run cos sched s = some s' ∧ s'.i = s.i + 1 := by
  have hn := hinv.1
  have hlt : s.i < s.nsteps := by omega
  -- the receive from `high`, after a send when its channel is empty
  have high : ∀ (c : Comp α) (p : point α), c.temp_low = some p →
      ∃ sched c', Comp.run cos sched c = some c' ∧ c'.i = c.i + 1 := by
    intro c p hp
    cases hc : c.high.channel with
    | nil =>
      have h1 := gen_send_eq_some cos c.high (by rw [hc]; simp [chanCap])
      rw [hc] at h1
      refine ⟨[CAction.sendHigh, CAction.recvHigh], ?_⟩
      simp only [Comp.run, Comp.step, h1, List.nil_append, Gen.recv, hp]
      exact ⟨_, rfl, rfl⟩
    | cons q rest =>
      have h1 := gen_recv_cons q rest c.high hc
      refine ⟨[CAction.recvHigh], ?_⟩
      simp only [Comp.run, Comp.step, h1, hp]
      exact ⟨_, rfl, rfl⟩
  cases ht : s.temp_low with
  | some p => exact high s p ht
  | none =>
    cases hc : s.low.channel with
    | nil =>
      have h1 := gen_send_eq_some cos s.low (by rw [hc]; simp [chanCap])
      rw [hc] at h1
      obtain ⟨l2, s2, hrun2, hi2⟩ := high
        { s with
          low := { s.low with channel := [], vars := post cos s.low.F s.low.dt s.low.vars }
          temp_low := some (body s.low.vars) } _ rfl
      refine ⟨CAction.sendLow :: CAction.recvLow :: l2, s2, ?_, hi2⟩
      simp only [Comp.run, Comp.step, h1, List.nil_append, Gen.recv, ht, hlt, if_true]
      exact hrun2
    | cons q rest =>
      have h1 := gen_recv_cons q rest s.low hc
      obtain ⟨l2, s2, hrun2, hi2⟩ := high
        { s with low := { s.low with channel := rest }, temp_low := some q } _ rfl
      refine ⟨CAction.recvLow :: l2, s2, ?_, hi2⟩
      simp only [Comp.run, Comp.step, h1, ht, hlt, if_true]
      exact hrun2

theorem comp_run_append (cos : α → α) (l1 l2 : List CAction) :
    ∀ (s s1 : Comp α), Comp.run cos l1 s = some s1 →
      Comp.run cos (l1 ++ l2) s = Comp.run cos l2 s1 := by
  induction l1 with
  | nil =>
    intro s s1 h
    simp only [Comp.run] at h
    injection h with h
    subst h
    rfl
  | cons a rest ih =>
    intro s s1 h
    simp only [Comp.run, List.cons_append] at h ⊢
    split at h
    · rename_i s2 hstep
      exact ih s2 s1 h
    · cases h

/-- From every state of a run the comparison loop can be brought to the state
where it has ended. -/
theorem comp_inv_complete (cos : α → α) (x0 y0 Fl Fh dt : α) (n : Nat) :
    ∀ (d : Nat) (s : Comp α), Comp.Inv cos x0 y0 Fl Fh dt n s → n - s.i = d →
      ∃ sched s', Comp.run cos sched s = some s' ∧ s'.i = n := by
  intro d
  induction d with
  | zero =>
    intro s hinv hd
    exact ⟨[], s, rfl, by have := hinv.2.1; omega⟩
  | succ d ih =>
    intro s hinv hd
    obtain ⟨l1, s1, hrun1, hi1⟩ := comp_inv_advance cos x0 y0 Fl Fh dt n s hinv (by omega)
    have hinv1 := (comp_inv_run cos x0 y0 Fl Fh dt n l1 s s1 hinv hrun1).1
    obtain ⟨l2, s2, hrun2, hi2⟩ := ih s1 hinv1 (by omega)
    exact ⟨l1 ++ l2, s2, by rw [comp_run_append cos l1 l2 s s1 hrun1, hrun2], hi2⟩

/-- The goroutine can run ahead until its channel is full. -/
theorem single_run_sends (cos : α → α) (k : Nat) :
    ∀ (s : Single α), s.results.channel.length + k ≤ chanCap →
      ∃ s', Single.run cos (List.replicate k Action.send) s = some s' ∧
        s'.results.channel.length = s.results.channel.length + k := by
  induction k with
  | zero =>
    intro s _
    exact ⟨s, rfl, rfl⟩
  | succ k ih =>
    intro s hs
    have h1 := gen_send_eq_some cos s.results (by omega)
    obtain ⟨s', hrun, hlen⟩ := ih
      { s with results := { s.results with
          channel := s.results.channel ++ [body s.results.vars]
          vars := post cos s.results.F s.results.dt s.results.vars } }
      (by simp only [List.length_append, List.length_singleton]; omega)
    refine ⟨s', ?_, ?_⟩
    · simp only [List.replicate_succ, Single.run, Single.step, h1]
      exact hrun
    · rw [hlen]
      simp only [List.length_append, List.length_singleton]
      omega

/-! ## Elapsed time and `nsteps` -/

/-- The loop variable `t` of iteration `k` is `k * dt`. -/
theorem loopVars_t (cos : α → α) (x0 y0 F dt : α) (k : Nat) :
    (loopVars cos x0 y0 F dt k).t = k * dt := by
  induction k with
  | zero => simp [loopVars]
  | succ k ih =>
    simp only [loopVars, post, ih]
    push_cast
    ring

/-- A product that fits in a `w`-bit `int` is not changed by the wrap. -/
theorem wrapInt_of_fits (w : Nat) (z : Int) (hw : 0 < w) (h0 : 0 ≤ z)
    (h1 : z < 2 ^ (w - 1)) : wrapInt w z = z := by
  obtain ⟨k, rfl⟩ : ∃ k, w = k + 1 := ⟨w - 1, by omega⟩
  have h2 : (2 : Int) ^ (k + 1) = 2 * 2 ^ k := by ring
  simp only [wrapInt, Nat.add_sub_cancel] at h1 ⊢
  rw [h2, Int.emod_eq_of_lt (by omega) (by omega)]
  omega

/-- Every run of the single-run loop extends to a finished run, whose slice is
the first `n` points of the generator. -/
theorem single_finish (cos : α → α) (x0 y0 F dt : α) (n : Nat) (sched : List Action)
    (s : Single α)
    (hrun : Single.run cos sched (Single.init (iter x0 y0 F dt) n) = some s) :
    ∃ more s', Single.run cos (sched ++ more) (Single.init (iter x0 y0 F dt) n) = some s' ∧
      s'.i = n ∧
      s'.points = (List.range n).map (fun j => toXY (emitted cos x0 y0 F dt j)) := by
  have hinv := (single_inv_run cos x0 y0 F dt n sched _ s
    (single_inv_init cos x0 y0 F dt n) hrun).1
  obtain ⟨more, s', hrun', hi'⟩ := single_inv_complete cos x0 y0 F dt n _ s hinv rfl
  have hinv' := (single_inv_run cos x0 y0 F dt n more s s' hinv hrun').1
  exact ⟨more, s', by rw [single_run_append cos sched more _ s hrun, hrun'], hi',
    single_inv_points cos x0 y0 F dt n s' hinv' hi'⟩

/-- Every run of the comparison loop extends to a finished run, whose slices
are the first `n` points of the two generators. -/
theorem comp_finish (cos : α → α) (x0 y0 Fl Fh dt : α) (n : Nat) (sched : List CAction)
    (s : Comp α)
    (hrun : Comp.run cos sched
      (Comp.init (iter x0 y0 Fl dt) (iter x0 y0 Fh dt) n) = some s) :
    ∃ more s', Comp.run cos (sched ++ more)
        (Comp.init (iter x0 y0 Fl dt) (iter x0 y0 Fh dt) n) = some s' ∧
      s'.i = n ∧
      s'.points_low = (List.range n).map (fun j => toXY (emitted cos x0 y0 Fl dt j)) ∧
      s'.points_high = (List.range n).map (fun j => toXY (emitted cos x0 y0 Fh dt j)) := by
  have hinv := (comp_inv_run cos x0 y0 Fl Fh dt n sched _ s
    (comp_inv_init cos x0 y0 Fl Fh dt n) hrun).1
  obtain ⟨more, s', hrun', hi'⟩ := comp_inv_complete cos x0 y0 Fl Fh dt n _ s hinv rfl
  have hinv' := (comp_inv_run cos x0 y0 Fl Fh dt n more s s' hinv hrun').1
  exact ⟨more, s', by rw [comp_run_append cos sched more _ s hrun, hrun'], hi',
    comp_inv_points cos x0 y0 Fl Fh dt n s' hinv' hi'⟩

/-- What `main` hands to its loop, when it gets there: the generators are
started with `dtOf f` and the bound is `nstepsOf w f`. -/
theorem mainInit_some (w maxAlloc : Nat) (plotErr : Bool) (f : Flags α) (st : MainState α)
    (h : mainInit w maxAlloc plotErr f = some st) :
    plotErr = false ∧ makePanics w maxAlloc (nstepsOf w f) = false ∧
    st = (if f.max_min_comp then
        MainState.comp (Comp.init (iter f.x0 f.y0 0.24 (dtOf f))
          (iter f.x0 f.y0 0.35 (dtOf f)) (nstepsOf w f).toNat)
      else
        MainState.single (Single.init (iter f.x0 f.y0 f.F (dtOf f))
          (nstepsOf w f).toNat)) := by
  unfold mainInit at h
  cases hp : plotErr <;> cases hm : makePanics w maxAlloc (nstepsOf w f) <;>
    cases hc : f.max_min_comp <;> simp [hp, hm, hc] at h ⊢ <;> exact h.symm

/-! ## Claims -/

/-- C1: the points sent by the goroutine of `iter x0 y0 F dt` follow the
explicit Euler recurrence: with `(x_n, y_n)` the point sent in iteration `n`
and `t_n` the loop variable `t` of that iteration, `t_0 = 0`,
`t_{n+1} = t_n + dt`, `x_{n+1} = x_n + dt*y_n` and
`y_{n+1} = y_n + dt*(F*cos(t_n) - 0.5*y_n + x_n - x_n^3)`, every right-hand
side taken at the old values. -/
theorem C1_euler_recurrence (cos : α → α) (x0 y0 F dt : α) (n : Nat) :
    (emitted cos x0 y0 F dt (n + 1)).x
        = (emitted cos x0 y0 F dt n).x + dt * (emitted cos x0 y0 F dt n).y ∧
    (emitted cos x0 y0 F dt (n + 1)).y
        = (emitted cos x0 y0 F dt n).y
          + dt * (F * cos (loopVars cos x0 y0 F dt n).t - 0.5 * (emitted cos x0 y0 F dt n).y
              + (emitted cos x0 y0 F dt n).x - (emitted cos x0 y0 F dt n).x ^ 3) ∧
    (loopVars cos x0 y0 F dt 0).t = 0 ∧
    (loopVars cos x0 y0 F dt (n + 1)).t = (loopVars cos x0 y0 F dt n).t + dt := by
  refine ⟨?_, ?_, rfl, rfl⟩
  · simp only [emitted, body, loopVars, post]
    ring
  · simp only [emitted, body, loopVars, post]
    ring

/-- C2: the first point sent by `iter x0 y0 F dt` is `(x0, y0)`: the first
send succeeds on the empty channel and puts `point{x: x0, y: y0}` there before
the post statement has run, and in every run of the single-run loop that has
done at least one iteration slot `0` of `points` is `(x0, y0)`. -/
theorem C2_first_point (cos : α → α) (x0 y0 F dt : α) (n : Nat) (sched : List Action)
    (s : Single α)
    (hrun : Single.run cos sched (Single.init (iter x0 y0 F dt) n) = some s)
    (hi : 0 < s.i) :
    emitted cos x0 y0 F dt 0 = { x := x0, y := y0, breaker := 0 } ∧
    (∃ g, (iter x0 y0 F dt).send cos = some g ∧
      g.channel = [{ x := x0, y := y0, breaker := 0 }]) ∧
    s.points[0]? = some { X := x0, Y := y0 } := by
  refine ⟨rfl, ⟨_, gen_send_eq_some cos _ (by simp [iter, chanCap]), rfl⟩, ?_⟩
  have h := (single_inv_run cos x0 y0 F dt n sched _ s
    (single_inv_init cos x0 y0 F dt n) hrun).1
  rw [h.2.2.2.2 0 hi]
  rfl

/-- Witness of C2: one send and one receive from `iter 3 5 1 1` with bound `1`. -/
theorem C2_first_point_witness :
    Single.run (fun _ => (1 : ℚ)) [Action.send, Action.recv] (Single.init (iter 3 5 1 1) 1)
      = some { results := { F := 1, dt := 1, vars := ⟨8, -41 / 2, 1⟩, channel := [] }
               nsteps := 1, i := 1, points := [⟨3, 5⟩] } ∧
    (0 : Nat) < 1 ∧
    [({ X := 3, Y := 5 } : XY ℚ)][0]? = some { X := 3, Y := 5 } :=
  have hrun : Single.run (fun _ => (1 : ℚ)) [Action.send, Action.recv]
      (Single.init (iter 3 5 1 1) 1)
      = some { results := { F := 1, dt := 1, vars := ⟨8, -41 / 2, 1⟩, channel := [] }
               nsteps := 1, i := 1, points := [⟨3, 5⟩] } := by
    simp [Single.run, Single.step, Single.init, Gen.send, Gen.recv, iter, post, body,
      chanCap, toXY]
    norm_num
  ⟨hrun, by decide, (C2_first_point (fun _ => (1 : ℚ)) 3 5 1 1 1 _ _ hrun (by decide)).2.2⟩

/-- C3: the single-run loop with bound `n` fills `points`, a slice of length
`n`, in generation order: in every run slot `j < i` holds point `j` of the
generator, when the loop has ended (`i = n`) the slice is exactly the first
`n` points, for `n = 0` it is empty, and the loop does end: no run has more
than `2*n + 400` moves and every run extends to one that has ended. -/
theorem C3_single_collect (cos : α → α) (x0 y0 F dt : α) (n : Nat) (sched : List Action)
    (s : Single α)
    (hrun : Single.run cos sched (Single.init (iter x0 y0 F dt) n) = some s) :
    s.points.length = n ∧
    (∀ j, j < s.i → s.points[j]? = some (toXY (emitted cos x0 y0 F dt j))) ∧
    (s.i = n → s.points = (List.range n).map (fun j => toXY (emitted cos x0 y0 F dt j))) ∧
    (n = 0 → s.points = []) ∧
    sched.length ≤ 2 * n + 400 ∧
    (∃ more s', Single.run cos (sched ++ more) (Single.init (iter x0 y0 F dt) n) = some s' ∧
      s'.i = n ∧
      s'.points = (List.range n).map (fun j => toXY (emitted cos x0 y0 F dt j))) := by
  obtain ⟨hinv, hfuel, -, -⟩ := single_inv_run cos x0 y0 F dt n sched _ s
    (single_inv_init cos x0 y0 F dt n) hrun
  refine ⟨hinv.2.2.2.1, hinv.2.2.2.2, single_inv_points cos x0 y0 F dt n s hinv, ?_, ?_, ?_⟩
  · intro h0
    exact List.length_eq_zero.mp (by rw [hinv.2.2.2.1, h0])
  · simp only [Single.fuel, Single.init, iter, chanCap, List.length_nil] at hfuel
    omega
  · obtain ⟨more, s', hrun', hi'⟩ := single_inv_complete cos x0 y0 F dt n _ s hinv rfl
    have hinv' := (single_inv_run cos x0 y0 F dt n more s s' hinv hrun').1
    exact ⟨more, s', by rw [single_run_append cos sched more _ s hrun, hrun'], hi',
      single_inv_points cos x0 y0 F dt n s' hinv' hi'⟩

/-- Witness of C3: two sends and two receives from `iter 0 0 1 1` with bound `2`. -/
theorem C3_single_collect_witness :
    Single.run (fun _ => (1 : ℚ)) [Action.send, Action.send, Action.recv, Action.recv]
        (Single.init (iter 0 0 1 1) 2)
      = some { results := { F := 1, dt := 1, vars := ⟨1, 3 / 2, 2⟩, channel := [] }
               nsteps := 2, i := 2, points := [⟨0, 0⟩, ⟨0, 1⟩] } ∧
    [({ X := 0, Y := 0 } : XY ℚ), { X := 0, Y := 1 }].length = 2 ∧
    ((2 : Nat) = 2 → [({ X := 0, Y := 0 } : XY ℚ), { X := 0, Y := 1 }]
      = (List.range 2).map (fun j => toXY (emitted (fun _ => (1 : ℚ)) 0 0 1 1 j))) :=
  have hrun : Single.run (fun _ => (1 : ℚ)) [Action.send, Action.send, Action.recv, Action.recv]
      (Single.init (iter 0 0 1 1) 2)
      = some { results := { F := 1, dt := 1, vars := ⟨1, 3 / 2, 2⟩, channel := [] }
               nsteps := 2, i := 2, points := [⟨0, 0⟩, ⟨0, 1⟩] } := by
    simp [Single.run, Single.step, Single.init, Gen.send, Gen.recv, iter, post, body,
      chanCap, toXY]
    norm_num
  have h := C3_single_collect (fun _ => (1 : ℚ)) 0 0 1 1 2 _ _ hrun
  ⟨hrun, h.1, h.2.2.1⟩

/-- C4: the comparison loop with bound `n` fills two slices of length `n`,
`points_low` from the generator started with `F = 0.24` and `points_high` from
the one started with `F = 0.35` (same `x0`, `y0`, `dt`): in every run slot
`j < i` of each slice holds point `j` of its own generator, when the loop has
finished each slice is exactly the first `n` points of its own generator, and
the loop does finish: no run has more than `4*n + 800` moves and every run
extends to one that has ended. -/
theorem C4_comp_collect (cos : α → α) (x0 y0 dt : α) (n : Nat) (sched : List CAction)
    (s : Comp α)
    (hrun : Comp.run cos sched
      (Comp.init (iter x0 y0 0.24 dt) (iter x0 y0 0.35 dt) n) = some s) :
    s.points_low.length = n ∧ s.points_high.length = n ∧
    (∀ j, j < s.i →
      s.points_low[j]? = some (toXY (emitted cos x0 y0 0.24 dt j)) ∧
      s.points_high[j]? = some (toXY (emitted cos x0 y0 0.35 dt j))) ∧
    (s.i = n →
      s.points_low = (List.range n).map (fun j => toXY (emitted cos x0 y0 0.24 dt j)) ∧
      s.points_high = (List.range n).map (fun j => toXY (emitted cos x0 y0 0.35 dt j))) ∧
    sched.length ≤ 4 * n + 800 ∧
    (∃ more s', Comp.run cos (sched ++ more)
        (Comp.init (iter x0 y0 0.24 dt) (iter x0 y0 0.35 dt) n) = some s' ∧
      s'.i = n ∧
      s'.points_low = (List.range n).map (fun j => toXY (emitted cos x0 y0 0.24 dt j)) ∧
      s'.points_high = (List.range n).map (fun j => toXY (emitted cos x0 y0 0.35 dt j))) := by
  obtain ⟨hinv, hfuel, -, -⟩ := comp_inv_run cos x0 y0 0.24 0.35 dt n sched _ s
    (comp_inv_init cos x0 y0 0.24 0.35 dt n) hrun
  refine ⟨hinv.2.2.1, hinv.2.2.2.1, ?_, comp_inv_points cos x0 y0 0.24 0.35 dt n s hinv, ?_, ?_⟩
  · intro j hj
    exact ⟨hinv.2.2.2.2.1 j hj, hinv.2.2.2.2.2.1 j hj⟩
  · simp only [Comp.fuel, Comp.held, Comp.init, iter, chanCap, List.length_nil] at hfuel
    omega
  · obtain ⟨more, s', hrun', hi'⟩ := comp_inv_complete cos x0 y0 0.24 0.35 dt n _ s hinv rfl
    have hinv' := (comp_inv_run cos x0 y0 0.24 0.35 dt n more s s' hinv hrun').1
    exact ⟨more, s', by rw [comp_run_append cos sched more _ s hrun, hrun'], hi',
      comp_inv_points cos x0 y0 0.24 0.35 dt n s' hinv' hi'⟩

/-- Witness of C4: one iteration of the comparison loop from `(3, 5)` with
`dt = 1`, the generator `high` sending first. -/
theorem C4_comp_collect_witness :
    Comp.run (fun _ => (1 : ℚ))
        [CAction.sendHigh, CAction.sendLow, CAction.recvLow, CAction.recvHigh]
        (Comp.init (iter 3 5 0.24 1) (iter 3 5 0.35 1) 1)
      = some { low := { F := 0.24, dt := 1, vars := ⟨8, -1063 / 50, 1⟩, channel := [] }
               high := { F := 0.35, dt := 1, vars := ⟨8, -423 / 20, 1⟩, channel := [] }
               nsteps := 1, i := 1, temp_low := none
               points_low := [⟨3, 5⟩], points_high := [⟨3, 5⟩] } ∧
    [({ X := 3, Y := 5 } : XY ℚ)].length = 1 ∧
    ((1 : Nat) = 1 →
      [({ X := 3, Y := 5 } : XY ℚ)]
        = (List.range 1).map (fun j => toXY (emitted (fun _ => (1 : ℚ)) 3 5 0.24 1 j)) ∧
      [({ X := 3, Y := 5 } : XY ℚ)]
        = (List.range 1).map (fun j => toXY (emitted (fun _ => (1 : ℚ)) 3 5 0.35 1 j))) :=
  have hrun : Comp.run (fun _ => (1 : ℚ))
      [CAction.sendHigh, CAction.sendLow, CAction.recvLow, CAction.recvHigh]
      (Comp.init (iter 3 5 0.24 1) (iter 3 5 0.35 1) 1)
      = some { low := { F := 0.24, dt := 1, vars := ⟨8, -1063 / 50, 1⟩, channel := [] }
               high := { F := 0.35, dt := 1, vars := ⟨8, -423 / 20, 1⟩, channel := [] }
               nsteps := 1, i := 1, temp_low := none
               points_low := [⟨3, 5⟩], points_high := [⟨3, 5⟩] } := by
    simp [Comp.run, Comp.step, Comp.init, Gen.send, Gen.recv, iter, post, body,
      chanCap, toXY]
    norm_num
  have h := C4_comp_collect (fun _ => (1 : ℚ)) 3 5 1 1 _ _ hrun
  ⟨hrun, h.1, h.2.2.2.1⟩

/-- C5 (as stated, refuted): `iter` accepts the step `dt = -1`: its first send
succeeds and emits `(0, 0)`; and `main` with the flags `-t -2 -dt -1` (64-bit
`int`, `plot.New` without error) builds that step, does not panic, and its
loop collects the two points `(0, 0)` and `(0, -0.24)`. -/
theorem C5_counterexample :
    (-1 : ℝ) ≤ 0 ∧
    (iter (0 : ℝ) 0 0.24 (-1)).send Real.cos
      = some { F := 0.24, dt := -1, vars := ⟨0, -0.24, -1⟩, channel := [⟨0, 0, 0⟩] } ∧
    mainInit 64 (2 ^ 48) false
        ({ F := 0.24, x0 := 0, y0 := 0, t := -2, dt := -1, max_min_comp := false } : Flags ℝ)
      = some (MainState.single (Single.init (iter 0 0 0.24 (-1)) 2)) ∧
    (Single.run Real.cos [Action.send, Action.recv, Action.send, Action.recv]
        (Single.init (iter (0 : ℝ) 0 0.24 (-1)) 2)).map (fun s => (s.i, s.points))
      = some (2, [⟨0, 0⟩, ⟨0, -0.24⟩]) := by
  refine ⟨by norm_num, ?_, ?_, ?_⟩
  · simp [Gen.send, iter, post, body, chanCap]
  · simp [mainInit, makePanics, xySize, nstepsOf, wrapInt, dtOf]
  · simp [Single.run, Single.step, Single.init, Gen.send, Gen.recv, iter, post, body,
      chanCap, toXY]

/-- C5 (amended): `iter` does not inspect `dt`: for every `dt`, non-positive
ones included, it returns a generator with an empty channel whose first send
succeeds and emits `(x0, y0)`, and whose later points use that `dt`. `main`
does not inspect it either: whenever `main` reaches its loop, for any
`dt_steps ≠ 0`, negative ones included, its generators were started by `iter`
with `dt = 1/dt_steps`. -/
theorem C5_no_dt_check (w maxAlloc : Nat) (plotErr : Bool) (cos : α → α) (x0 y0 F dt : α)
    (f : Flags α) (st : MainState α) (_hdt : f.dt ≠ 0)
    (hst : mainInit w maxAlloc plotErr f = some st) :
    (iter x0 y0 F dt).channel = [] ∧
    (iter x0 y0 F dt).send cos
      = some { F := F, dt := dt, vars := post cos F dt { x := x0, y := y0, t := 0 }
               channel := [{ x := x0, y := y0, breaker := 0 }] } ∧
    (∀ k, emitted cos x0 y0 F dt (k + 1)
      = body (post cos F dt (loopVars cos x0 y0 F dt k))) ∧
    st = (if f.max_min_comp then
        MainState.comp (Comp.init (iter f.x0 f.y0 0.24 (1 / (f.dt : α)))
          (iter f.x0 f.y0 0.35 (1 / (f.dt : α))) (nstepsOf w f).toNat)
      else
        MainState.single (Single.init (iter f.x0 f.y0 f.F (1 / (f.dt : α)))
          (nstepsOf w f).toNat)) := by
  refine ⟨rfl, ?_, fun _ => rfl, (mainInit_some w maxAlloc plotErr f st hst).2.2⟩
  rw [gen_send_eq_some cos _ (by simp [iter, chanCap])]
  rfl

/-- Witness of C5: the flags `-t -2 -dt -1` with 64-bit `int`. -/
theorem C5_no_dt_check_witness :
    (-1 : Int) ≠ 0 ∧
    mainInit 64 (2 ^ 48) false
        ({ F := 0.24, x0 := 0, y0 := 0, t := -2, dt := -1, max_min_comp := false } : Flags ℚ)
      = some (MainState.single (Single.init (iter 0 0 0.24 (-1)) 2)) ∧
    (iter (0 : ℚ) 0 0.24 (-1)).send (fun _ => 1)
      = some { F := 0.24, dt := -1
               vars := post (fun _ => 1) 0.24 (-1) { x := 0, y := 0, t := 0 }
               channel := [{ x := 0, y := 0, breaker := 0 }] } :=
  have hst : mainInit 64 (2 ^ 48) false
      ({ F := 0.24, x0 := 0, y0 := 0, t := -2, dt := -1, max_min_comp := false } : Flags ℚ)
      = some (MainState.single (Single.init (iter 0 0 0.24 (-1)) 2)) := by
    simp [mainInit, makePanics, xySize, nstepsOf, wrapInt, dtOf]
  ⟨by decide, hst,
    (C5_no_dt_check 64 (2 ^ 48) false (fun _ => (1 : ℚ)) 0 0 0.24 (-1) _ _ (by decide) hst).2.1⟩

/-- C6 (as stated, refuted): with `F = 0.24` and `dt = 1` the generator
started at `(0, 0.24)` and the generator started at `(0, 0)` both send the
point `(0, 0.24)`, the first at elapsed time `0` and the second at elapsed
time `1`, and the points they send next differ. -/
theorem C6_counterexample :
    emitted Real.cos 0 0.24 0.24 1 0 = emitted Real.cos 0 0 0.24 1 1 ∧
    emitted Real.cos 0 0.24 0.24 1 1 ≠ emitted Real.cos 0 0 0.24 1 2 ∧
    body (post Real.cos 0.24 1 { x := 0, y := 0.24, t := 0 })
      ≠ body (post Real.cos 0.24 1 { x := 0, y := 0.24, t := 1 }) := by
  have hcos := Real.cos_one_le
  refine ⟨?_, ?_, ?_⟩
  · simp [emitted, loopVars, post, body]
  · intro h
    have hy := congrArg point.y h
    simp [emitted, loopVars, post, body] at hy
    linarith
  · intro h
    have hy := congrArg point.y h
    simp [post, body] at hy
    linarith

/-- C6 (amended): the next point is a function of the current point, of `F`
and `dt`, and of the elapsed time `t_n = n * dt`, which is the one piece of
state the goroutine keeps besides `(x, y)`; it enters through `F*cos(t_n)`
only. -/
theorem C6_next_point (cos : α → α) (x0 y0 F dt : α) (n : Nat) :
    (loopVars cos x0 y0 F dt n).t = n * dt ∧
    emitted cos x0 y0 F dt (n + 1)
      = { x := (emitted cos x0 y0 F dt n).x + dt * (emitted cos x0 y0 F dt n).y
          y := (emitted cos x0 y0 F dt n).y
            + dt * (F * cos (n * dt) - 0.5 * (emitted cos x0 y0 F dt n).y
                + (emitted cos x0 y0 F dt n).x - (emitted cos x0 y0 F dt n).x ^ 3)
          breaker := 0 } := by
  refine ⟨loopVars_t cos x0 y0 F dt n, ?_⟩
  rw [← loopVars_t cos x0 y0 F dt n]
  simp only [emitted, body, loopVars, post, point.mk.injEq, and_true]
  constructor <;> ring

/-- C7: with `comp` set, `main` enters its loop in a state that does not
depend on the flag `F`: the generators are `iter x0 y0 0.24 dt` and
`iter x0 y0 0.35 dt`, and when the loop has ended the two series are the first
`nsteps` points of these two generators. -/
theorem C7_comp_ignores_F (w maxAlloc : Nat) (plotErr : Bool) (cos : α → α) (f : Flags α)
    (F1 F2 : α) (hcomp : f.max_min_comp = true) :
    mainInit w maxAlloc plotErr { f with F := F1 }
      = mainInit w maxAlloc plotErr { f with F := F2 } ∧
    ∀ st, mainInit w maxAlloc plotErr { f with F := F1 } = some st →
      st = MainState.comp (Comp.init (iter f.x0 f.y0 0.24 (dtOf f))
        (iter f.x0 f.y0 0.35 (dtOf f)) (nstepsOf w f).toNat) ∧
      ∀ s0 sched s, st = MainState.comp s0 → Comp.run cos sched s0 = some s →
        s.i = s.nsteps →
        s.points_low = (List.range s.nsteps).map
          (fun j => toXY (emitted cos f.x0 f.y0 0.24 (dtOf f) j)) ∧
        s.points_high = (List.range s.nsteps).map
          (fun j => toXY (emitted cos f.x0 f.y0 0.35 (dtOf f) j)) := by
  refine ⟨by simp [mainInit, hcomp, nstepsOf, dtOf], ?_⟩
  intro st hst
  have hst' : st = MainState.comp (Comp.init (iter f.x0 f.y0 0.24 (dtOf f))
      (iter f.x0 f.y0 0.35 (dtOf f)) (nstepsOf w f).toNat) := by
    have h := (mainInit_some w maxAlloc plotErr _ st hst).2.2
    simpa [hcomp, nstepsOf, dtOf] using h
  refine ⟨hst', ?_⟩
  intro s0 sched s hs0 hrun hi
  rw [hst'] at hs0
  injection hs0 with hs0
  subst hs0
  have hinv := (comp_inv_run cos f.x0 f.y0 0.24 0.35 (dtOf f) _ sched _ s
    (comp_inv_init cos f.x0 f.y0 0.24 0.35 (dtOf f) (nstepsOf w f).toNat) hrun).1
  rw [hinv.1] at hi ⊢
  exact comp_inv_points cos f.x0 f.y0 0.24 0.35 (dtOf f) _ s hinv hi

/-- Witness of C7: the flags `-F 1` and `-F 2` with `-comp -t 2 -dt 10`. -/
theorem C7_comp_ignores_F_witness :
    (true = true) ∧
    mainInit 64 (2 ^ 48) false
        ({ F := 1, x0 := 0, y0 := 0, t := 2, dt := 10, max_min_comp := true } : Flags ℚ)
      = mainInit 64 (2 ^ 48) false
        ({ F := 2, x0 := 0, y0 := 0, t := 2, dt := 10, max_min_comp := true } : Flags ℚ) :=
  ⟨rfl, (C7_comp_ignores_F 64 (2 ^ 48) false (fun _ => (1 : ℚ))
    ({ F := 0, x0 := 0, y0 := 0, t := 2, dt := 10, max_min_comp := true } : Flags ℚ)
    1 2 rfl).1⟩

/-- C8 (as stated, refuted): with 64-bit `int` and the flags `-t 2^62 -dt 4`
the product `t*dt = 2^64` wraps to `nsteps = 0`, so `main` collects no point;
with `-t 2^61 -dt 4` it wraps to `-2^63`, and with `-t 2^60 -dt 1` the slice
of `16 * 2^60` bytes is too large: `make` panics in both. The wrap to `0`
happens with 32-bit `int` at `-t 2^30 -dt 4`. -/
theorem C8_counterexample :
    (0 : Int) < 4 ∧ (0 : Int) ≤ 2 ^ 62 ∧ (2 ^ 62 * 4 : Int) ≠ 0 ∧
    nstepsOf 64
        ({ F := 0.24, x0 := 0, y0 := 0, t := 2 ^ 62, dt := 4, max_min_comp := false } : Flags ℚ)
      = 0 ∧
    mainInit 64 (2 ^ 48) false
        ({ F := 0.24, x0 := 0, y0 := 0, t := 2 ^ 62, dt := 4, max_min_comp := false } : Flags ℚ)
      = some (MainState.single (Single.init (iter 0 0 0.24 (1 / 4)) 0)) ∧
    mainInit 64 (2 ^ 48) false
        ({ F := 0.24, x0 := 0, y0 := 0, t := 2 ^ 61, dt := 4, max_min_comp := false } : Flags ℚ)
      = none ∧
    mainInit 64 (2 ^ 48) false
        ({ F := 0.24, x0 := 0, y0 := 0, t := 2 ^ 60, dt := 1, max_min_comp := false } : Flags ℚ)
      = none ∧
    nstepsOf 32
        ({ F := 0.24, x0 := 0, y0 := 0, t := 2 ^ 30, dt := 4, max_min_comp := false } : Flags ℚ)
      = 0 := by
  refine ⟨by decide, by decide, by decide, ?_, ?_, ?_, ?_, ?_⟩
  · simp [nstepsOf, wrapInt]
  · simp [mainInit, makePanics, xySize, nstepsOf, wrapInt, dtOf]
  · simp [mainInit, makePanics, xySize, nstepsOf, wrapInt, dtOf]
  · simp [mainInit, makePanics, xySize, nstepsOf, wrapInt, dtOf]
  · simp [nstepsOf, wrapInt]

/-- C8 (amended): for `dt_steps > 0` and `t ≥ 0` whose product `n = t*dt_steps`
fits in the `w`-bit `int` (`n < 2^(w-1)`) and whose slice `make` can allocate
(`16*n < 2^w` and `16*n ≤ maxAlloc`), and with `plot.New` returning no error:
`nsteps = n`, and `main` enters the loop of its branch with generators started
with `dt = 1/dt_steps` and with the bound `n`. In both branches every run of
the loop has slot `j < i` of each slice equal to point `j` of its generator,
and extends to a finished run whose slices are exactly the first `n` points.
The point of index `k` is the state at elapsed time `k/dt_steps`, and
`n*dt = t`. -/
theorem C8_main_steps [CharZero α] (w maxAlloc : Nat) (plotErr : Bool) (cos : α → α)
    (f : Flags α) (hw : 0 < w) (hdt : 0 < f.dt) (ht : 0 ≤ f.t)
    (hfit : f.t * f.dt < 2 ^ (w - 1)) (hplot : plotErr = false)
    (hsize : 16 * (f.t * f.dt) < 2 ^ w) (halloc : 16 * (f.t * f.dt) ≤ (maxAlloc : Int)) :
    nstepsOf w f = f.t * f.dt ∧
    mainInit w maxAlloc plotErr f = some (
      if f.max_min_comp then
        MainState.comp (Comp.init (iter f.x0 f.y0 0.24 (1 / (f.dt : α)))
          (iter f.x0 f.y0 0.35 (1 / (f.dt : α))) (f.t * f.dt).toNat)
      else
        MainState.single (Single.init (iter f.x0 f.y0 f.F (1 / (f.dt : α)))
          (f.t * f.dt).toNat)) ∧
    (∀ sched s, Single.run cos sched (Single.init (iter f.x0 f.y0 f.F (1 / (f.dt : α)))
        (f.t * f.dt).toNat) = some s →
      s.points.length = (f.t * f.dt).toNat ∧
      (∀ j, j < s.i →
        s.points[j]? = some (toXY (emitted cos f.x0 f.y0 f.F (1 / (f.dt : α)) j))) ∧
      ∃ more s', Single.run cos (sched ++ more)
          (Single.init (iter f.x0 f.y0 f.F (1 / (f.dt : α))) (f.t * f.dt).toNat) = some s' ∧
        s'.i = (f.t * f.dt).toNat ∧
        s'.points = (List.range (f.t * f.dt).toNat).map
          (fun j => toXY (emitted cos f.x0 f.y0 f.F (1 / (f.dt : α)) j))) ∧
    (∀ sched s, Comp.run cos sched (Comp.init (iter f.x0 f.y0 0.24 (1 / (f.dt : α)))
        (iter f.x0 f.y0 0.35 (1 / (f.dt : α))) (f.t * f.dt).toNat) = some s →
      s.points_low.length = (f.t * f.dt).toNat ∧
      s.points_high.length = (f.t * f.dt).toNat ∧
      (∀ j, j < s.i →
        s.points_low[j]? = some (toXY (emitted cos f.x0 f.y0 0.24 (1 / (f.dt : α)) j)) ∧
        s.points_high[j]? = some (toXY (emitted cos f.x0 f.y0 0.35 (1 / (f.dt : α)) j))) ∧
      ∃ more s', Comp.run cos (sched ++ more)
          (Comp.init (iter f.x0 f.y0 0.24 (1 / (f.dt : α)))
            (iter f.x0 f.y0 0.35 (1 / (f.dt : α))) (f.t * f.dt).toNat) = some s' ∧
        s'.i = (f.t * f.dt).toNat ∧
        s'.points_low = (List.range (f.t * f.dt).toNat).map
          (fun j => toXY (emitted cos f.x0 f.y0 0.24 (1 / (f.dt : α)) j)) ∧
        s'.points_high = (List.range (f.t * f.dt).toNat).map
          (fun j => toXY (emitted cos f.x0 f.y0 0.35 (1 / (f.dt : α)) j))) ∧
    (∀ F k, (loopVars cos f.x0 f.y0 F (1 / (f.dt : α)) k).t = (k : α) / (f.dt : α)) ∧
    (((f.t * f.dt).toNat : Int) : α) * (1 / (f.dt : α)) = (f.t : α) := by
  have hprod : 0 ≤ f.t * f.dt := Int.mul_nonneg ht (Int.le_of_lt hdt)
  have hn : nstepsOf w f = f.t * f.dt := wrapInt_of_fits w _ hw hprod hfit
  have hne : (f.dt : α) ≠ 0 := Int.cast_ne_zero.mpr (Int.ne_of_gt hdt)
  have hmake : makePanics w maxAlloc (f.t * f.dt) = false := by
    simp only [makePanics, xySize, Bool.or_eq_false_iff, decide_eq_false_iff_not]
    exact ⟨⟨Int.not_lt.mpr hprod, Int.not_le.mpr hsize⟩, Int.not_lt.mpr halloc⟩
  refine ⟨hn, ?_, ?_, ?_, ?_, ?_⟩
  · unfold mainInit
    rw [hn, hmake, hplot]
    by_cases hc : f.max_min_comp = true <;> simp [hc, dtOf]
  · intro sched s hrun
    have hinv := (single_inv_run cos _ _ _ _ _ sched _ s (single_inv_init cos _ _ _ _ _) hrun).1
    exact ⟨hinv.2.2.2.1, hinv.2.2.2.2, single_finish cos _ _ _ _ _ sched s hrun⟩
  · intro sched s hrun
    have h := (comp_inv_run cos _ _ _ _ _ _ sched _ s (comp_inv_init cos _ _ _ _ _ _) hrun).1
    exact ⟨h.2.2.1, h.2.2.2.1, fun j hj => ⟨h.2.2.2.2.1 j hj, h.2.2.2.2.2.1 j hj⟩,
      comp_finish cos _ _ _ _ _ _ sched s hrun⟩
  · intro F k
    rw [loopVars_t]
    ring
  · rw [Int.toNat_of_nonneg hprod]
    push_cast
    field_simp

/-- Witness of C8: the default flags `-t 100 -dt 1000` with 64-bit `int`. -/
theorem C8_main_steps_witness :
    (0 : Nat) < 64 ∧ (0 : Int) < 1000 ∧ (0 : Int) ≤ 100 ∧
    (100 * 1000 : Int) < 2 ^ (64 - 1) ∧ false = false ∧
    (16 * (100 * 1000) : Int) < 2 ^ 64 ∧ (16 * (100 * 1000) : Int) ≤ ((2 ^ 48 : Nat) : Int) ∧
    nstepsOf 64
        ({ F := 0.24, x0 := 0, y0 := 0, t := 100, dt := 1000, max_min_comp := false } : Flags ℚ)
      = 100 * 1000 ∧
    mainInit 64 (2 ^ 48) false
        ({ F := 0.24, x0 := 0, y0 := 0, t := 100, dt := 1000, max_min_comp := false } : Flags ℚ)
      = some (MainState.single
          (Single.init (iter 0 0 0.24 (1 / ((1000 : Int) : ℚ))) (100 * 1000 : Int).toNat)) :=
  have h := C8_main_steps 64 (2 ^ 48) false (fun _ => (1 : ℚ))
    ({ F := 0.24, x0 := 0, y0 := 0, t := 100, dt := 1000, max_min_comp := false } : Flags ℚ)
    (by decide) (by decide) (by decide) (by decide) rfl (by decide) (by decide)
  ⟨by decide, by decide, by decide, by decide, rfl, by decide, by decide, h.1, h.2.1⟩

/-- C9: with `x0 = 0`, `y0 = 0`, `F = 0.24`, `dt = 0.001` and `n = 3`, over the
reals, the loop ends with `points[0] = (0, 0)`, `points[1] = (0, 0.00024)` and
`points[2] = (0 + 0.001*0.00024,
0.00024 + 0.001*(0.24*cos(0.001) - 0.5*0.00024 + 0 - 0^3))`. -/
theorem C9_example (sched : List Action) (s : Single ℝ)
    (hrun : Single.run Real.cos sched (Single.init (iter 0 0 0.24 0.001) 3) = some s)
    (hi : s.i = 3) :
    s.points = [{ X := 0, Y := 0 }, { X := 0, Y := 0.00024 },
      { X := 0 + 0.001 * 0.00024
        Y := 0.00024 + 0.001 * (0.24 * Real.cos 0.001 - 0.5 * 0.00024 + 0 - 0 ^ 3) }] := by
  have hinv := (single_inv_run Real.cos 0 0 0.24 0.001 3 sched _ s
    (single_inv_init Real.cos 0 0 0.24 0.001 3) hrun).1
  rw [single_inv_points Real.cos 0 0 0.24 0.001 3 s hinv hi]
  simp [List.range_succ, emitted, loopVars, post, body, toXY]
  norm_num
  ring

/-- Witness of C9: three sends followed by three receives. -/
theorem C9_example_witness :
    Single.run Real.cos
        [Action.send, Action.send, Action.send, Action.recv, Action.recv, Action.recv]
        (Single.init (iter 0 0 0.24 0.001) 3)
      = some { results := { F := 0.24, dt := 0.001
                            vars := loopVars Real.cos 0 0 0.24 0.001 3, channel := [] }
               nsteps := 3, i := 3
               points := (List.range 3).map
                 (fun j => toXY (emitted Real.cos 0 0 0.24 0.001 j)) } ∧
    (3 : Nat) = 3 ∧
    (List.range 3).map (fun j => toXY (emitted Real.cos 0 0 0.24 0.001 j))
      = [{ X := 0, Y := 0 }, { X := 0, Y := 0.00024 },
        { X := 0 + 0.001 * 0.00024
          Y := 0.00024 + 0.001 * (0.24 * Real.cos 0.001 - 0.5 * 0.00024 + 0 - 0 ^ 3) }] :=
  have hrun : Single.run Real.cos
      [Action.send, Action.send, Action.send, Action.recv, Action.recv, Action.recv]
      (Single.init (iter 0 0 0.24 0.001) 3)
      = some { results := { F := 0.24, dt := 0.001
                            vars := loopVars Real.cos 0 0 0.24 0.001 3, channel := [] }
               nsteps := 3, i := 3
               points := (List.range 3).map
                 (fun j => toXY (emitted Real.cos 0 0 0.24 0.001 j)) } := by
    simp [Single.run, Single.step, Single.init, Gen.send, Gen.recv, iter, chanCap,
      List.range_succ, emitted, loopVars]
  ⟨hrun, rfl, C9_example _ _ hrun rfl⟩

/-- C10: in every state reached by an interleaving of sends and receives, in
the single-run system and in the comparison system, each channel holds at
most 400 points, and the number of points sent and not yet received is the
number of points in the channel; a send on a channel that holds 400 points is
not enabled, and is enabled again after a receive. The bound is attained: 400
sends in a row are possible. -/
theorem C10_backpressure (cos : α → α) (x0 y0 F Fl Fh dt : α) (n : Nat)
    (sched : List Action) (s : Single α)
    (hrun : Single.run cos sched (Single.init (iter x0 y0 F dt) n) = some s)
    (csched : List CAction) (c : Comp α)
    (hcrun : Comp.run cos csched
      (Comp.init (iter x0 y0 Fl dt) (iter x0 y0 Fh dt) n) = some c) :
    (s.results.channel.length ≤ 400 ∧
      sched.count Action.send = sched.count Action.recv + s.results.channel.length ∧
      (s.results.channel.length = 400 → Single.step cos Action.send s = none) ∧
      (∀ s1, Single.step cos Action.recv s = some s1 →
        ∃ s2, Single.step cos Action.send s1 = some s2)) ∧
    (c.low.channel.length ≤ 400 ∧ c.high.channel.length ≤ 400 ∧
      csched.count CAction.sendLow = csched.count CAction.recvLow + c.low.channel.length ∧
      csched.count CAction.sendHigh = csched.count CAction.recvHigh + c.high.channel.length ∧
      (c.low.channel.length = 400 → Comp.step cos CAction.sendLow c = none) ∧
      (c.high.channel.length = 400 → Comp.step cos CAction.sendHigh c = none) ∧
      (∀ c1, Comp.step cos CAction.recvLow c = some c1 →
        ∃ c2, Comp.step cos CAction.sendLow c1 = some c2) ∧
      (∀ c1, Comp.step cos CAction.recvHigh c = some c1 →
        ∃ c2, Comp.step cos CAction.sendHigh c1 = some c2)) ∧
    (∃ s', Single.run cos (List.replicate 400 Action.send)
        (Single.init (iter x0 y0 F dt) n) = some s' ∧ s'.results.channel.length = 400) := by
  obtain ⟨hinv, -, hcount, -⟩ := single_inv_run cos x0 y0 F dt n sched _ s
    (single_inv_init cos x0 y0 F dt n) hrun
  obtain ⟨hcinv, -, hcl, hch⟩ := comp_inv_run cos x0 y0 Fl Fh dt n csched _ c
    (comp_inv_init cos x0 y0 Fl Fh dt n) hcrun
  have hcap := hinv.2.2.1.2.2.1
  have hcapl := hcinv.2.2.2.2.2.2.1.2.2.1
  have hcaph := hcinv.2.2.2.2.2.2.2.1.2.2.1
  simp only [chanCap] at hcap hcapl hcaph
  simp only [Single.init, Comp.init, iter, List.length_nil, Nat.add_zero] at hcount hcl hch
  refine ⟨⟨hcap, hcount, ?_, ?_⟩, ⟨hcapl, hcaph, hcl, hch, ?_, ?_, ?_, ?_⟩, ?_⟩
  · intro h
    simp only [Single.step]
    rw [gen_send_eq_none cos _ (by rw [h]; exact Nat.le_refl _)]
  · intro s1 h1
    obtain ⟨-, -, hlen, -⟩ := single_inv_step cos x0 y0 F dt n _ s s1 hinv h1
    simp only [if_true] at hlen
    have h2 := gen_send_eq_some cos s1.results (by simp [chanCap] at hlen ⊢; omega)
    exact ⟨_, by simp only [Single.step]; rw [h2]⟩
  · intro h
    simp only [Comp.step]
    rw [gen_send_eq_none cos _ (by rw [h]; exact Nat.le_refl _)]
  · intro h
    simp only [Comp.step]
    rw [gen_send_eq_none cos _ (by rw [h]; exact Nat.le_refl _)]
  · intro c1 h1
    obtain ⟨-, -, hlen, -⟩ := comp_inv_step cos x0 y0 Fl Fh dt n _ c c1 hcinv h1
    simp only [if_true] at hlen
    have h2 := gen_send_eq_some cos c1.low (by simp [chanCap] at hlen ⊢; omega)
    exact ⟨_, by simp only [Comp.step]; rw [h2]⟩
  · intro c1 h1
    obtain ⟨-, -, -, hlen⟩ := comp_inv_step cos x0 y0 Fl Fh dt n _ c c1 hcinv h1
    simp only [if_true] at hlen
    have h2 := gen_send_eq_some cos c1.high (by simp [chanCap] at hlen ⊢; omega)
    exact ⟨_, by simp only [Comp.step]; rw [h2]⟩
  · obtain ⟨s', h1, h2⟩ := single_run_sends cos 400 (Single.init (iter x0 y0 F dt) n)
      (by simp [Single.init, iter, chanCap])
    exact ⟨s', h1, by rw [h2]; simp [Single.init, iter]⟩

/-- Witness of C10: one send in each of the two systems. -/
theorem C10_backpressure_witness :
    Single.run (fun _ => (1 : ℚ)) [Action.send] (Single.init (iter 0 0 1 1) 1)
      = some { results := { F := 1, dt := 1, vars := ⟨0, 1, 1⟩, channel := [⟨0, 0, 0⟩] }
               nsteps := 1, i := 0, points := [⟨0, 0⟩] } ∧
    Comp.run (fun _ => (1 : ℚ)) [CAction.sendHigh] (Comp.init (iter 0 0 1 1) (iter 0 0 2 1) 1)
      = some { low := { F := 1, dt := 1, vars := ⟨0, 0, 0⟩, channel := [] }
               high := { F := 2, dt := 1, vars := ⟨0, 2, 1⟩, channel := [⟨0, 0, 0⟩] }
               nsteps := 1, i := 0, temp_low := none
               points_low := [⟨0, 0⟩], points_high := [⟨0, 0⟩] } ∧
    [({ x := 0, y := 0, breaker := 0 } : point ℚ)].length ≤ 400 ∧
    [Action.send].count Action.send
      = [Action.send].count Action.recv + [({ x := 0, y := 0, breaker := 0 } : point ℚ)].length :=
  have hrun : Single.run (fun _ => (1 : ℚ)) [Action.send] (Single.init (iter 0 0 1 1) 1)
      = some { results := { F := 1, dt := 1, vars := ⟨0, 1, 1⟩, channel := [⟨0, 0, 0⟩] }
               nsteps := 1, i := 0, points := [⟨0, 0⟩] } := by
    simp [Single.run, Single.step, Single.init, Gen.send, iter, post, body, chanCap]
  have hcrun : Comp.run (fun _ => (1 : ℚ)) [CAction.sendHigh]
      (Comp.init (iter 0 0 1 1) (iter 0 0 2 1) 1)
      = some { low := { F := 1, dt := 1, vars := ⟨0, 0, 0⟩, channel := [] }
               high := { F := 2, dt := 1, vars := ⟨0, 2, 1⟩, channel := [⟨0, 0, 0⟩] }
               nsteps := 1, i := 0, temp_low := none
               points_low := [⟨0, 0⟩], points_high := [⟨0, 0⟩] } := by
    simp [Comp.run, Comp.step, Comp.init, Gen.send, iter, post, body, chanCap]
  have h := C10_backpressure (fun _ => (1 : ℚ)) 0 0 1 1 2 1 1 _ _ hrun _ _ hcrun
  ⟨hrun, hcrun, h.1.1, h.1.2.1⟩

end Duffing
